import Mathlib

/-!
Verification of the block-wise FP8 (E4M3) optimizer-state codec in
`torchao/prototype/low_bit_optim/subclass_fp8.py`.

Modelling conventions:
* Tensors are flattened `List ℚ`; float arithmetic is idealized as exact
  rational arithmetic, except for the cast to the 8-bit E4M3 format, which is
  modelled exactly (round to nearest, ties to even, over the E4M3 value grid).
* Operations that raise a Python/torch exception are modelled with `Except`:
  each error constructor names the concrete failure in the source.
* `torch.float8_e4m3fn` constants: `finfo.max = 448`, `finfo.min = -448`
  (the most negative finite value), smallest positive normal `2 ^ (-6)`.
-/

/-- The float literal `1e-12` used by `quantize_fp8` as a clamp floor. -/
def eps : ℚ := 1 / 1000000000000

/-- `torch.finfo(torch.float8_e4m3fn).max` = 448. -/
def e4m3Max : ℚ := 448

/-- `torch.finfo(torch.float8_e4m3fn).min`: the most negative finite E4M3
value, namely −448 (NOT the smallest positive normal, which is `tiny`). -/
def e4m3Min : ℚ := -448

/-- The smallest positive normal E4M3 value, `torch.finfo(...).tiny` = 2⁻⁶. -/
def e4m3Tiny : ℚ := 1 / 64

/-- Source line 25: `Rdtype = torch.finfo(DTYPE).max / torch.finfo(DTYPE).min`. -/
def Rdtype : ℚ := e4m3Max / e4m3Min

/-- The format dynamic range following the words of the spec:
`R_fmt = max_representable(E4M3) / min_representable_normal(E4M3)`.
Declared only to compare with the constant `Rdtype` the source computes. -/
def RfmtSpec : ℚ := e4m3Max / e4m3Tiny

/-- `t.abs().amax(-1)` over one block, with `0` as the base of the fold
(all entries of the fold are absolute values, so the base is never the
maximum of a nonempty block). -/
def amaxAbs (l : List ℚ) : ℚ := l.foldr (fun x m => max |x| m) 0

/-- `t.abs().amin(-1)` over one nonempty block. -/
def aminAbs : List ℚ → ℚ
  | [] => 0
  | x :: xs => xs.foldr (fun y m => min |y| m) |x|

/-- Source line 26: the per-block ratio
`input.abs().amax(-1).clip(1e-12) / input.abs().amin(-1).clip(1e-12)`. -/
def Rx (b : List ℚ) : ℚ := max (amaxAbs b) eps / max (aminAbs b) eps

/-- Round a rational to the nearest integer, ties to even (the rounding used
by the hardware float cast). -/
def rne (t : ℚ) : ℤ :=
  if t - ⌊t⌋ < 1 / 2 then ⌊t⌋
  else if 1 / 2 < t - ⌊t⌋ then ⌊t⌋ + 1
  else if ⌊t⌋ % 2 = 0 then ⌊t⌋ else ⌊t⌋ + 1

/-- The binade exponent used by the E4M3 value grid: the largest
`e ∈ [-6, 8]` with `2 ^ e ≤ a`, and `-6` for subnormal magnitudes
(`a < 2⁻⁶`), whose grid spacing coincides with the lowest normal binade. -/
def expOf (a : ℚ) : ℤ :=
  (List.range 15).foldl (fun acc i => if (2 : ℚ) ^ ((i : ℤ) - 6) ≤ a then (i : ℤ) - 6 else acc) (-6)

/-- The spacing (ulp) of the E4M3 grid around the value `q` (3 mantissa
bits, so the step inside binade `e` is `2 ^ (e - 3)`). -/
def e4m3Step (q : ℚ) : ℚ := (2 : ℚ) ^ (expOf |q| - 3)

/-- The `.to(torch.float8_e4m3fn)` cast: round to the nearest E4M3 grid
value.  Faithful for `|q| ≤ 448` (the only range the codec produces;
larger magnitudes would be NaN in torch and are not modelled). -/
def e4m3Round (q : ℚ) : ℚ :=
  (if q < 0 then (-1 : ℚ) else 1) * ((rne (|q| / e4m3Step q) : ℚ) * e4m3Step q)

deriving instance DecidableEq for Except

/-- The per-block scales of `quantize_fp8` without range expansion
(source line 30): `scale = input.abs().amax(-1).clip(1e-12) / finfo.max`,
one entry per block of `bs` consecutive elements. -/
def scaleOf (input : List ℚ) (bs : ℕ) : List ℚ :=
  (List.range (input.length / bs)).map
    (fun j => max (amaxAbs ((input.drop (j * bs)).take bs)) eps / e4m3Max)

/-- The codes of `quantize_fp8` without range expansion (source line 31-32):
`(input / scale.view(-1, 1)).to(DTYPE)`, i.e. element `i` is
`input[i] / scale[i / bs]` cast to E4M3. -/
def codesOf (input : List ℚ) (bs : ℕ) : List ℚ :=
  (List.range input.length).map
    (fun i => e4m3Round (input.getD i 0 / (scaleOf input bs).getD (i / bs) 0))

/-- Errors raised by `quantize_fp8`. -/
inductive QErr where
  /-- `input.view(-1, block_size)` fails: `block_size` is zero or does not
  divide the element count (torch RuntimeError). -/
  | viewError
  /-- Source line 27: `torch.log(Rdtype)` is applied to the Python float
  `Rdtype = 448 / (-448) = -1.0`, which raises TypeError (torch.log takes a
  Tensor); even tensorized, `log(-1)` would be NaN.  Every call with
  `dynamic_range_expansion=True` dies here. -/
  | logTypeError
  deriving DecidableEq, Repr

/-- Embedding of `quantize_fp8(input, block_size, dynamic_range_expansion)`
(source lines 15–34).  Returns `(codes, scale, k)`:
`scale[j] = max(amax |block j|, 1e-12) / 448` and
`codes[i] = cast_to_E4M3(input[i] / scale[i / block_size])`,
matching `input / scale.view(-1, 1)` followed by `.to(DTYPE)`. -/
def quantize_fp8 (input : List ℚ) (block_size : ℕ) (dre : Bool) :
    Except QErr (List ℚ × List ℚ × Option (List ℚ)) :=
  if block_size = 0 then .error .viewError
  else if ¬ input.length % block_size = 0 then .error .viewError
  else if dre then .error .logTypeError
  else .ok (codesOf input block_size, scaleOf input block_size, none)

/-- The wrapper `OptimStateFp8`: stored fields `codes`, `scale` and the
optional per-block exponent tensor `k` (default `None`). -/
structure OptimStateFp8 where
  codes : List ℚ
  scale : List ℚ
  k : Option (List ℚ)
  deriving DecidableEq, Repr

/-- `self.block_size = codes.numel() // scale.numel()` (floor division). -/
def OptimStateFp8.block_size (s : OptimStateFp8) : ℕ :=
  s.codes.length / s.scale.length

/-- Errors raised by `OptimStateFp8.dequantize`. -/
inductive DErr where
  /-- `float_data.view(-1, self.block_size)` fails (RuntimeError): the floored
  `block_size` is zero or does not divide the element count. -/
  | viewError
  /-- The broadcast `float_data.view(-1, bs) * scale.view(-1, 1)` fails
  (RuntimeError): the row count differs from `scale.numel()` and neither
  is 1. -/
  | broadcastError
  /-- `if self.k:` on a tensor with more than one element raises
  `RuntimeError: Boolean value of Tensor with more than one element is
  ambiguous`. -/
  | boolAmbiguous
  deriving DecidableEq, Repr

/-- Elementwise float power `x ** e` with an exact rational result.
`some v` is the exact value; `none` is a result the rational model leaves
unrepresented: NaN (negative base, non-integer exponent), infinity
(`0 ** negative`), or an irrational real power.  All claims below only
evaluate it at integer exponents, where it is total and exact. -/
def powQ (x e : ℚ) : Option ℚ :=
  if e.den = 1 then
    if x = 0 ∧ e.num < 0 then none else some (x ^ e.num)
  else if x = 0 ∧ 0 < e then some 0
  else none

/-- The block-wise rescaling `float_data.view(-1, bs) * scale.view(-1, 1)`
flattened back: element `i` is `codes[i] * scale[i / block_size]`. -/
def dequantFd (st : OptimStateFp8) : List ℚ :=
  (List.range st.codes.length).map
    (fun i => st.codes.getD i 0 * st.scale.getD (i / st.block_size) 0)

/-- Embedding of `OptimStateFp8.dequantize` (source lines 76–87).
Output elements are `Option ℚ` because the `k`-branch raises values to a
rational power (see `powQ`); on the `k = None` path every element is `some`.
The three error branches are the torch RuntimeErrors raised by, in order:
`float_data.view(-1, self.block_size)` with a zero or non-dividing (floored)
`block_size`; the broadcast against `scale.view(-1, 1)` when the row count
disagrees with `scale.numel()`; and the truthiness test `if self.k:` on a
tensor of more than one element. -/
def dequantize (st : OptimStateFp8) : Except DErr (List (Option ℚ)) :=
  if st.block_size = 0 then .error .viewError
  else if ¬ st.codes.length % st.block_size = 0 then .error .viewError
  else if ¬ (st.codes.length / st.block_size = st.scale.length ∨ st.scale.length = 1) then
    .error .broadcastError
  else
    match st.k with
    | none => .ok ((dequantFd st).map some)
    | some ks =>
      if ks.length = 1 then
        if ks.getD 0 0 = 0 then .ok ((dequantFd st).map some)
        else .ok ((dequantFd st).map (fun x => powQ x (1 / ks.getD 0 0)))
      else .error .boolAmbiguous

/-- Sign function as the spec uses it (`sign(x)` with `sign 0 = 0`). -/
def sgn (x : ℚ) : ℚ := if x < 0 then -1 else if x = 0 then 0 else 1

/-- The inverse transform in the words of the spec, for comparison with the
code: `x = sign(xp) * |xp| ^ (1/k)` applied to one element. -/
def specInvElem (xp kv : ℚ) : Option ℚ :=
  (powQ |xp| (1 / kv)).map (fun m => sgn xp * m)

/-- Errors raised by the `aten.copy_.default` handler (source lines 103–123). -/
inductive CopyErr where
  /-- `assert dst.block_size == src.block_size` fails (AssertionError), before
  any field of the destination is touched. -/
  | assertBlockSize
  /-- `Tensor.copy_` between tensors of different element counts
  (RuntimeError; the model requires equal sizes and does not model
  the size-1 broadcast case, which no claim exercises). -/
  | shapeMismatch
  /-- `dst.k.copy_(src.k)` with `dst.k = None`: AttributeError, since
  `None` has no `copy_` method.  Raised after `codes` and `scale` were
  already overwritten. -/
  | attrErrorNoneK
  /-- `dst.k.copy_(None)` with a tensor `dst.k`: TypeError.  Also raised
  after `codes` and `scale` were already overwritten. -/
  | typeErrorNoneSrcK
  /-- Source line 115: `quantize_fp8(codes, dst.block_size,
  dst.dynamic_range_expansion)` reads the local variable `codes` before its
  assignment (UnboundLocalError) — the author meant `src` — and
  `dst.dynamic_range_expansion` does not exist either.  Arguments are
  evaluated before the call, so this branch dies before any mutation. -/
  | unboundLocal
  /-- `src.dequantize()` raised inside the plain-destination branch. -/
  | srcDecodeError
  /-- The decoded source holds a value the rational model leaves
  unrepresented (see `powQ`); no claim exercises this. -/
  | nanUnmodeled
  deriving DecidableEq, Repr

/-- The quantized-to-quantized branch of the `aten.copy_.default` handler
(source lines 107–111).  Returns the destination state after the call
together with the error, if one was raised; mutations performed before an
error are visible in the returned state, mirroring the in-place `copy_`
calls. -/
def copySameKind (dst src : OptimStateFp8) : OptimStateFp8 × Option CopyErr :=
  if dst.block_size ≠ src.block_size then (dst, some .assertBlockSize)
  else if dst.codes.length ≠ src.codes.length then (dst, some .shapeMismatch)
  else
    let d1 : OptimStateFp8 := { dst with codes := src.codes }
    if d1.scale.length ≠ src.scale.length then (d1, some .shapeMismatch)
    else
      let d2 : OptimStateFp8 := { d1 with scale := src.scale }
      match dst.k, src.k with
      | some dk, some sk =>
        if dk.length ≠ sk.length then (d2, some .shapeMismatch)
        else ({ d2 with k := some sk }, none)
      | none, _ => (d2, some .attrErrorNoneK)
      | some _, none => (d2, some .typeErrorNoneSrcK)

/-- A tensor argument of the copy handler: either a quantized state or a
plain wide-precision tensor. -/
inductive TensorArg where
  | q (s : OptimStateFp8)
  | w (t : List ℚ)
  deriving DecidableEq

/-- Embedding of the whole `aten.copy_.default` handler (source lines
103–123): dispatch on whether destination and source are quantized. -/
def copyHandler : TensorArg → TensorArg → TensorArg × Option CopyErr
  | .q dst, .q src => ((TensorArg.q (copySameKind dst src).1), (copySameKind dst src).2)
  | .q dst, .w _ => (.q dst, some .unboundLocal)
  | .w dst, .q src =>
    match dequantize src with
    | .error _ => (.w dst, some .srcDecodeError)
    | .ok v =>
      match v.mapM id with
      | none => (.w dst, some .nanUnmodeled)
      | some vq => if vq.length = dst.length then (.w vq, none) else (.w dst, some .shapeMismatch)
  | .w dst, .w _ => (.w dst, some .srcDecodeError)

/-- Embedding of the `aten._to_copy.default` handler (source lines 126–134):
the new state is built from `codes.to(device)` and `scale.to(device)` only —
the constructor is called without `k`, so the result's `k` is `None`; a
device move preserves values. -/
def toCopy (st : OptimStateFp8) : OptimStateFp8 :=
  ⟨st.codes, st.scale, none⟩

theorem rne_half (t : ℚ) : |(rne t : ℚ) - t| ≤ 1 / 2 := by
  have h0 : (0 : ℚ) ≤ t - ⌊t⌋ := sub_nonneg.mpr (Int.floor_le t)
  have h1 : t - ⌊t⌋ < 1 := by
    have := Int.lt_floor_add_one t
    linarith
  unfold rne
  split_ifs with hlt hgt heven
  · rw [abs_sub_comm, abs_of_nonneg h0]
    linarith
  · push_cast
    rw [abs_of_nonneg (by linarith)]
    linarith
  · rw [abs_sub_comm, abs_of_nonneg h0]
    linarith
  · push_cast
    rw [abs_of_nonneg (by linarith)]
    linarith

theorem e4m3Step_pos (q : ℚ) : 0 < e4m3Step q := by
  unfold e4m3Step
  exact zpow_pos (by norm_num) _

theorem grid_err (y s : ℚ) (hs : 0 < s) : |(rne (y / s) : ℚ) * s - y| ≤ s / 2 := by
  have key := rne_half (y / s)
  have h1 : (rne (y / s) : ℚ) * s - y = ((rne (y / s) : ℚ) - y / s) * s := by
    field_simp
  rw [h1, abs_mul, abs_of_pos hs]
  calc |(rne (y / s) : ℚ) - y / s| * s ≤ (1 / 2) * s :=
        mul_le_mul_of_nonneg_right key hs.le
    _ = s / 2 := by ring

theorem e4m3Round_err (q : ℚ) : |e4m3Round q - q| ≤ e4m3Step q / 2 := by
  have hs := e4m3Step_pos q
  by_cases hq : q < 0
  · rw [e4m3Round, if_pos hq, abs_of_neg hq]
    have e : (-1 : ℚ) * ((rne (-q / e4m3Step q) : ℚ) * e4m3Step q) - q
        = -(((rne (-q / e4m3Step q) : ℚ)) * e4m3Step q - (-q)) := by ring
    rw [e, abs_neg]
    exact grid_err (-q) (e4m3Step q) hs
  · rw [e4m3Round, if_neg hq, abs_of_nonneg (not_lt.mp hq), one_mul]
    exact grid_err q (e4m3Step q) hs

theorem quant_elem_err (x s : ℚ) (hs : 0 < s) :
    |e4m3Round (x / s) * s - x| ≤ e4m3Step (x / s) / 2 * s := by
  have h := e4m3Round_err (x / s)
  have h1 : e4m3Round (x / s) * s - x = (e4m3Round (x / s) - x / s) * s := by
    field_simp
  rw [h1, abs_mul, abs_of_pos hs]
  exact mul_le_mul_of_nonneg_right h hs.le

theorem getD_range_map {α : Type} (f : ℕ → α) (d : α) {i N : ℕ} (h : i < N) :
    ((List.range N).map f).getD i d = f i := by
  rw [List.getD_eq_getElem?_getD, List.getElem?_map, List.getElem?_range h]
  rfl

theorem scaleOf_length (input : List ℚ) (bs : ℕ) :
    (scaleOf input bs).length = input.length / bs := by
  simp [scaleOf]

theorem codesOf_length (input : List ℚ) (bs : ℕ) :
    (codesOf input bs).length = input.length := by
  simp [codesOf]

theorem scaleOf_getD_pos (input : List ℚ) (bs : ℕ) {j : ℕ} (hj : j < input.length / bs) :
    0 < (scaleOf input bs).getD j 0 := by
  rw [scaleOf, getD_range_map _ _ hj]
  have heps : (0 : ℚ) < eps := by norm_num [eps]
  have : (0 : ℚ) < max (amaxAbs ((input.drop (j * bs)).take bs)) eps :=
    lt_of_lt_of_le heps (le_max_right _ _)
  exact div_pos this (by norm_num [e4m3Max])

theorem quantize_eq (input : List ℚ) (bs : ℕ) (h0 : ¬ bs = 0)
    (hd : input.length % bs = 0) :
    quantize_fp8 input bs false = .ok (codesOf input bs, scaleOf input bs, none) := by
  rw [quantize_fp8, if_neg h0, if_neg (by simp [hd])]
  rfl

theorem dequantize_none_ok (codes scale : List ℚ) (bs : ℕ) (hbs : ¬ bs = 0)
    (hS : ¬ scale.length = 0) (hlen : codes.length = scale.length * bs) :
    dequantize ⟨codes, scale, none⟩ =
      .ok (((List.range codes.length).map
        (fun i => some (codes.getD i 0 * scale.getD (i / bs) 0)))) := by
  have hbs2 : (⟨codes, scale, none⟩ : OptimStateFp8).block_size = bs := by
    show codes.length / scale.length = bs
    rw [hlen, Nat.mul_div_cancel_left _ (Nat.pos_of_ne_zero hS)]
  have hmod : codes.length % bs = 0 := by
    rw [hlen]
    exact Nat.mul_mod_left _ _
  have hrows : codes.length / bs = scale.length := by
    rw [hlen]
    exact Nat.mul_div_cancel _ (Nat.pos_of_ne_zero hbs)
  rw [dequantize, hbs2]
  dsimp only
  rw [if_neg hbs, if_neg (by simp [hmod]), if_neg (not_not_intro (Or.inl hrows))]
  rw [dequantFd, hbs2]
  dsimp only
  rw [List.map_map]
  rfl

unseal Rat.add Rat.mul Rat.inv Rat.sub Rat.ofScientific in
/-- C1: for every input whose element count is a positive multiple of
`block_size`, encoding with `expand_range = false` and then decoding
succeeds, and each output element `e4m3Round(x/s) * s` differs from the
input element `x` by at most half the E4M3 grid step at `x/s`, rescaled by
that block's scale `s` (the E4M3 quantization step at the block's scale).
In particular for `block_size = 4` and block `[1, -2, 1/2, 4]` the scale is
`4 / 448`, the codes are the block values divided by the scale and rounded
to E4M3, and decoding reproduces the block exactly. -/
theorem c1_round_trip :
    (∀ (input : List ℚ) (bs : ℕ) (codes scale : List ℚ) (k : Option (List ℚ)),
      0 < bs → bs ∣ input.length → 0 < input.length →
      quantize_fp8 input bs false = .ok (codes, scale, k) →
      ∃ out, dequantize ⟨codes, scale, k⟩ = .ok out ∧
        out.length = input.length ∧
        ∀ i, i < input.length →
          out.getD i none =
            some (e4m3Round (input.getD i 0 / scale.getD (i / bs) 0) * scale.getD (i / bs) 0) ∧
          |e4m3Round (input.getD i 0 / scale.getD (i / bs) 0) * scale.getD (i / bs) 0
              - input.getD i 0|
            ≤ e4m3Step (input.getD i 0 / scale.getD (i / bs) 0) / 2 * scale.getD (i / bs) 0)
    ∧ quantize_fp8 [1, -2, 1/2, 4] 4 false = .ok ([112, -224, 56, 448], [4 / 448], none)
    ∧ dequantize ⟨[112, -224, 56, 448], [4 / 448], none⟩
        = .ok [some 1, some (-2), some (1/2), some 4] := by
  refine ⟨?_, by decide, by decide⟩
  intro input bs codes scale k hbs hdvd hN hq
  rw [quantize_eq input bs (by omega) ((Nat.mod_eq_zero_of_dvd hdvd))] at hq
  simp only [Except.ok.injEq, Prod.mk.injEq] at hq
  obtain ⟨hc, hs, hk⟩ := hq
  subst hc
  subst hs
  subst hk
  have hSpos : 0 < input.length / bs := Nat.div_pos (Nat.le_of_dvd hN hdvd) hbs
  have hmul : input.length / bs * bs = input.length := Nat.div_mul_cancel hdvd
  have hlen : (codesOf input bs).length = (scaleOf input bs).length * bs := by
    rw [codesOf_length, scaleOf_length, hmul]
  refine ⟨_, dequantize_none_ok _ _ bs (by omega) (by rw [scaleOf_length]; omega) hlen, ?_, ?_⟩
  · simp [codesOf_length]
  · intro i hi
    have hiC : i < (codesOf input bs).length := by rw [codesOf_length]; exact hi
    have hj : i / bs < input.length / bs := by
      rw [Nat.div_lt_iff_lt_mul hbs, hmul]
      exact hi
    have hcode : (codesOf input bs).getD i 0 =
        e4m3Round (input.getD i 0 / (scaleOf input bs).getD (i / bs) 0) := by
      rw [codesOf, getD_range_map _ _ hi]
    have hspos : 0 < (scaleOf input bs).getD (i / bs) 0 := scaleOf_getD_pos input bs hj
    constructor
    · rw [getD_range_map _ _ hiC, hcode]
    · exact quant_elem_err _ _ hspos

unseal Rat.add Rat.mul Rat.inv Rat.sub Rat.ofScientific in
/-- C1 witness: the general round-trip bound instantiated at the concrete
block `[1, -2, 1/2, 4]` with `block_size = 4`. -/
theorem c1_round_trip_witness :
    (0 : ℕ) < 4 ∧ (4 : ℕ) ∣ ([1, -2, 1/2, 4] : List ℚ).length ∧
    (0 : ℕ) < ([1, -2, 1/2, 4] : List ℚ).length ∧
    quantize_fp8 [1, -2, 1/2, 4] 4 false = .ok ([112, -224, 56, 448], [4 / 448], none) ∧
    (∃ out, dequantize ⟨[112, -224, 56, 448], [4 / 448], none⟩ = .ok out ∧
      out.length = ([1, -2, 1/2, 4] : List ℚ).length ∧
      ∀ i, i < ([1, -2, 1/2, 4] : List ℚ).length →
        out.getD i none =
          some (e4m3Round (([1, -2, 1/2, 4] : List ℚ).getD i 0 / ([4 / 448] : List ℚ).getD (i / 4) 0)
            * ([4 / 448] : List ℚ).getD (i / 4) 0) ∧
        |e4m3Round (([1, -2, 1/2, 4] : List ℚ).getD i 0 / ([4 / 448] : List ℚ).getD (i / 4) 0)
            * ([4 / 448] : List ℚ).getD (i / 4) 0 - ([1, -2, 1/2, 4] : List ℚ).getD i 0|
          ≤ e4m3Step (([1, -2, 1/2, 4] : List ℚ).getD i 0 / ([4 / 448] : List ℚ).getD (i / 4) 0) / 2
            * ([4 / 448] : List ℚ).getD (i / 4) 0) :=
  ⟨by decide, by decide, by decide, by decide,
    c1_round_trip.1 [1, -2, 1/2, 4] 4 [112, -224, 56, 448] [4 / 448] none
      (by decide) (by decide) (by decide) (by decide)⟩

unseal Rat.add Rat.mul Rat.inv Rat.sub Rat.ofScientific in
/-- C2: the claim says the code computes the format range as
`R_fmt = max_representable / min_representable_normal`, a fixed positive
constant.  The code instead computes `finfo.max / finfo.min = 448 / (-448)
= -1` (source line 25), a negative number: `log` of it is not a real
number, so `k = log(R_fmt) / log(R_block)` can never be computed, and the
embedded `quantize_fp8` faults on every expansion-enabled call.  The
`R_block` computation itself matches the claim (`Rx [1, 2] = 2`). -/
theorem c2_rfmt_code_bug :
    Rdtype = -1 ∧ Rdtype < 0 ∧ RfmtSpec = 28672 ∧ Rdtype ≠ RfmtSpec ∧
    Rx [1, 2] = 2 ∧
    quantize_fp8 [1, 2] 2 true = .error .logTypeError := by decide

unseal Rat.add Rat.mul Rat.inv Rat.sub Rat.ofScientific in
/-- C3: the claim says decode applies `sign(xp) * |xp| ^ (1/k)`, preserving
every sign.  The code applies `float_data ** (1 / k)` directly to the
signed value (source line 82): for the state with codes `[-1]`, scale
`[1]`, `k = [1/2]` the code yields `(-1) ^ 2 = +1` while the spec's
transform yields `-1` — the sign is lost.  Moreover `if self.k:` raises on
any state with more than one block, so the transform is not even reached
there. -/
theorem c3_decode_sign_lost :
    dequantize ⟨[-1], [1], some [1/2]⟩ = .ok [some 1] ∧
    specInvElem (-1) (1/2) = some (-1) ∧
    dequantize ⟨[1, 1], [1, 1], some [2, 2]⟩ = .error .boolAmbiguous := by decide

unseal Rat.add Rat.mul Rat.inv Rat.sub Rat.ofScientific in
/-- C4: whenever the scale length does not evenly divide the codes length,
decode signals an error (the reshape or the broadcast fails) instead of
proceeding with a fractional or floored block size; in particular codes of
length 10 with scale of length 3 fail at the view step. -/
theorem c4_malformed_decode :
    (∀ (codes scale : List ℚ) (k : Option (List ℚ)),
      ¬ (scale.length ∣ codes.length) →
      ∃ e, dequantize ⟨codes, scale, k⟩ = .error e) ∧
    dequantize ⟨[1, 1, 1, 1, 1, 1, 1, 1, 1, 1], [1, 1, 1], none⟩ = .error .viewError := by
  constructor
  · intro codes scale k hnd
    rw [dequantize]
    dsimp only [OptimStateFp8.block_size]
    by_cases h0 : codes.length / scale.length = 0
    · exact ⟨.viewError, by rw [if_pos h0]⟩
    · by_cases h1 : codes.length % (codes.length / scale.length) = 0
      · have hbc : ¬ (codes.length / (codes.length / scale.length) = scale.length ∨
            scale.length = 1) := by
          rintro (hrows | hone)
          · have hdvd2 : (codes.length / scale.length) ∣ codes.length :=
              Nat.dvd_of_mod_eq_zero h1
            have key : codes.length / scale.length *
                (codes.length / (codes.length / scale.length)) = codes.length :=
              Nat.mul_div_cancel' hdvd2
            rw [hrows] at key
            exact hnd ⟨codes.length / scale.length, key.symm.trans (Nat.mul_comm _ _)⟩
          · rw [hone] at hnd
            exact hnd (one_dvd _)
        exact ⟨.broadcastError, by rw [if_neg h0, if_neg (not_not_intro h1), if_pos hbc]⟩
      · exact ⟨.viewError, by rw [if_neg h0, if_pos h1]⟩
  · decide

unseal Rat.add Rat.mul Rat.inv Rat.sub Rat.ofScientific in
/-- C4 witness: the 10-codes / 3-scales instance of the general statement. -/
theorem c4_malformed_decode_witness :
    ¬ (([1, 1, 1] : List ℚ).length ∣ ([1, 1, 1, 1, 1, 1, 1, 1, 1, 1] : List ℚ).length) ∧
    ∃ e, dequantize ⟨[1, 1, 1, 1, 1, 1, 1, 1, 1, 1], [1, 1, 1], none⟩ = .error e :=
  ⟨by decide, c4_malformed_decode.1 [1, 1, 1, 1, 1, 1, 1, 1, 1, 1] [1, 1, 1] none (by decide)⟩

/-- C5: the claim says a copy from a wide-precision source encodes the
source with the destination's settings and completes without error.  The
code's wide-source branch (source line 115) reads the local `codes` before
assignment and a nonexistent `dst.dynamic_range_expansion` attribute, so
the branch always raises (UnboundLocalError) before mutating anything —
the embedded handler errors for every quantized destination and wide
source. -/
theorem c5_wide_source_copy :
    ∀ (dst : OptimStateFp8) (src : List ℚ),
      copyHandler (.q dst) (.w src) = (.q dst, some .unboundLocal) :=
  fun _ _ => rfl

/-- C6: a same-kind copy between states of different derived block sizes
fails the leading `assert dst.block_size == src.block_size` and returns
with the destination completely unchanged — no field is mutated. -/
theorem c6_block_size_guard :
    ∀ (dst src : OptimStateFp8), dst.block_size ≠ src.block_size →
      copySameKind dst src = (dst, some .assertBlockSize) := by
  intro dst src h
  rw [copySameKind, if_pos h]

set_option maxRecDepth 8192 in
unseal Rat.add Rat.mul Rat.inv Rat.sub Rat.ofScientific in
/-- C6 witness: block A with `block_size = 128` copied into block B with
`block_size = 256` errors with B unchanged. -/
theorem c6_block_size_guard_witness :
    (⟨List.replicate 256 0, [1], none⟩ : OptimStateFp8).block_size ≠
      (⟨List.replicate 128 0, [1], none⟩ : OptimStateFp8).block_size ∧
    copySameKind ⟨List.replicate 256 0, [1], none⟩ ⟨List.replicate 128 0, [1], none⟩
      = (⟨List.replicate 256 0, [1], none⟩, some .assertBlockSize) :=
  ⟨by decide, c6_block_size_guard _ _ (by decide)⟩

unseal Rat.add Rat.mul Rat.inv Rat.sub Rat.ofScientific in
/-- C7: the claim says a same-kind copy with matching block size replaces
the fields verbatim without error.  The code runs `dst.k.copy_(src.k)`
unconditionally (source line 111): when both states carry `k = None` —
e.g. any state built by `OptimStateFp8.zeros`, and in particular the
claim's own identical-contents scenario — this raises AttributeError
(`None` has no `copy_`), after codes and scale were already overwritten.
Only when both sides carry a `k` tensor does the copy complete verbatim. -/
theorem c7_same_kind_copy_crashes :
    copySameKind ⟨[0], [1], none⟩ ⟨[0], [1], none⟩
      = (⟨[0], [1], none⟩, some .attrErrorNoneK) ∧
    copySameKind ⟨[0], [1], some [2]⟩ ⟨[0], [1], some [3]⟩
      = (⟨[0], [1], some [3]⟩, none) := by decide

unseal Rat.add Rat.mul Rat.inv Rat.sub Rat.ofScientific in
/-- C8: an all-zero block with `expand_range = false` encodes to all-zero
codes with the scale clamped to `1e-12 / 448` and decodes back to zeros;
but with `expand_range = true` the code faults (the `torch.log` call on the
negative Python float `Rdtype`, source lines 25–27) instead of producing
the same result, so the claimed behavior holds for only one of the two
settings. -/
theorem c8_zero_block :
    quantize_fp8 [0, 0, 0, 0] 4 false = .ok ([0, 0, 0, 0], [eps / e4m3Max], none) ∧
    dequantize ⟨[0, 0, 0, 0], [eps / e4m3Max], none⟩ = .ok [some 0, some 0, some 0, some 0] ∧
    quantize_fp8 [0, 0, 0, 0] 4 true = .error .logTypeError := by decide

/-- C9: whenever encode returns, the scale sequence has exactly one entry
per block (`length = N / block_size`) and every entry is strictly positive
(each is at least `1e-12 / 448` thanks to the clamp). -/
theorem c9_scale_invariant :
    ∀ (input : List ℚ) (bs : ℕ) (dre : Bool) (codes scale : List ℚ) (k : Option (List ℚ)),
      0 < bs → bs ∣ input.length →
      quantize_fp8 input bs dre = .ok (codes, scale, k) →
      scale.length = input.length / bs ∧ ∀ s ∈ scale, 0 < s := by
  intro input bs dre codes scale k hbs hdvd hq
  cases dre with
  | true =>
    rw [quantize_fp8, if_neg (by omega),
      if_neg (by simp [Nat.mod_eq_zero_of_dvd hdvd])] at hq
    simp at hq
  | false =>
    rw [quantize_eq input bs (by omega) (Nat.mod_eq_zero_of_dvd hdvd)] at hq
    simp only [Except.ok.injEq, Prod.mk.injEq] at hq
    obtain ⟨hc, hs, hk⟩ := hq
    subst hs
    constructor
    · exact scaleOf_length input bs
    · intro s hs
      rw [scaleOf] at hs
      obtain ⟨j, hj, rfl⟩ := List.mem_map.mp hs
      have heps : (0 : ℚ) < eps := by norm_num [eps]
      exact div_pos (lt_of_lt_of_le heps (le_max_right _ _)) (by norm_num [e4m3Max])

unseal Rat.add Rat.mul Rat.inv Rat.sub Rat.ofScientific in
/-- C9 witness: the scale invariant instantiated at `[1, 2]` with
`block_size = 2`. -/
theorem c9_scale_invariant_witness :
    (0 : ℕ) < 2 ∧ (2 : ℕ) ∣ ([1, 2] : List ℚ).length ∧
    quantize_fp8 [1, 2] 2 false = .ok ([224, 448], [2 / 448], none) ∧
    (([2 / 448] : List ℚ).length = ([1, 2] : List ℚ).length / 2 ∧
      ∀ s ∈ ([2 / 448] : List ℚ), 0 < s) :=
  ⟨by decide, by decide, by decide,
    c9_scale_invariant [1, 2] 2 false [224, 448] [2 / 448] none
      (by decide) (by decide) (by decide)⟩

theorem dequantize_none_shape (c s : List ℚ) (out : List (Option ℚ))
    (h : dequantize ⟨c, s, none⟩ = .ok out) :
    out = (List.range c.length).map
      (fun i => some (c.getD i 0 * s.getD (i / ((⟨c, s, none⟩ : OptimStateFp8).block_size)) 0)) := by
  rw [dequantize] at h
  dsimp only [OptimStateFp8.block_size] at h
  by_cases h0 : c.length / s.length = 0
  · rw [if_pos h0] at h
    exact absurd h (by simp)
  · rw [if_neg h0] at h
    by_cases h1 : c.length % (c.length / s.length) = 0
    · rw [if_neg (not_not_intro h1)] at h
      by_cases h2 : c.length / (c.length / s.length) = s.length ∨ s.length = 1
      · rw [if_neg (not_not_intro h2)] at h
        simp only [Except.ok.injEq] at h
        rw [← h, dequantFd, List.map_map]
        rfl
      · rw [if_pos h2] at h
        exact absurd h (by simp)
    · rw [if_pos h1] at h
      exact absurd h (by simp)

/-- C10: the `_to_copy` handler rebuilds the state from `codes` and `scale`
only, so the transferred state always has `k = None` — even when the source
carried a `k` — while codes and scale values are preserved; decoding the
transferred state therefore never applies the inverse signed-power
transform: whenever it succeeds it returns exactly the plain block-wise
product `codes[i] * scale[i / block_size]`. -/
theorem c10_to_copy_drops_k :
    ∀ st : OptimStateFp8,
      (toCopy st).codes = st.codes ∧ (toCopy st).scale = st.scale ∧ (toCopy st).k = none ∧
      ∀ out, dequantize (toCopy st) = .ok out →
        out = (List.range st.codes.length).map
          (fun i => some (st.codes.getD i 0 * st.scale.getD (i / st.block_size) 0)) := by
  intro st
  exact ⟨rfl, rfl, rfl, fun out h => dequantize_none_shape st.codes st.scale out h⟩

unseal Rat.add Rat.mul Rat.inv Rat.sub Rat.ofScientific in
/-- C10 witness: transferring a state that carries `k = [5]` drops the `k`
and decodes through the plain path. -/
theorem c10_to_copy_drops_k_witness :
    dequantize (toCopy ⟨[2], [3], some [5]⟩) = .ok [some 6] ∧
    ([some 6] : List (Option ℚ)) = (List.range ([2] : List ℚ).length).map
      (fun i => some (([2] : List ℚ).getD i 0 *
        ([3] : List ℚ).getD (i / (⟨[2], [3], some [5]⟩ : OptimStateFp8).block_size) 0)) :=
  ⟨by decide, (c10_to_copy_drops_k ⟨[2], [3], some [5]⟩).2.2.2 [some 6] (by decide)⟩
